import Mathlib

/-!
Verification of the sn-clickbait pipeline: the greedy line wrapper
(`TextImage.parse_text`), the article classifier (`Article.check_article`),
the attribution resolver (`Article.get_source_url` and the earlier
`ClickbaitBot.get_source_url` variant) and the caption composer
(`Tweet.create_tweet`).  Strings are modelled as `List Char`; Python's
mutable-list loop in `parse_text` is modelled by an explicit cursor with a
fuel bound, since the source loop mutates the list it iterates over.
-/

/-- Python whitespace test used by `str.split` / `str.strip`
(space, tab, newline, carriage return, vertical tab, form feed). -/
def isSpace (c : Char) : Bool :=
  c == ' ' || c == '\t' || c == '\n' || c == '\r' ||
    c == Char.ofNat 11 || c == Char.ofNat 12

/-- The double-quote character. -/
def quoteD : Char := Char.ofNat 34

/-- The straight single-quote character. -/
def quoteS : Char := Char.ofNat 39

/-- The left curly quote, accepted by `create_tweet` as an opening quote. -/
def lquote : Char := Char.ofNat 8216

/-- The right curly quote, accepted by `create_tweet` as a closing quote. -/
def rquote : Char := Char.ofNat 8217

/-- The memo emoji prefixed to a source link in the tweet text. -/
def pinChar : Char := Char.ofNat 128221

/-- Accumulator loop behind `pySplit`; `acc` is the current word, reversed. -/
def wordsAux : List Char → List Char → List (List Char)
  | [], acc => if acc.isEmpty then [] else [acc.reverse]
  | c :: rest, acc =>
    if isSpace c then
      if acc.isEmpty then wordsAux rest [] else acc.reverse :: wordsAux rest []
    else wordsAux rest (c :: acc)

/-- Python `str.split()`: split on whitespace runs, dropping empty parts. -/
def pySplit (s : List Char) : List (List Char) := wordsAux s []

/-- Python `sep.join(parts)`. -/
def joinSep (sep : List Char) : List (List Char) → List Char
  | [] => []
  | [x] => x
  | x :: y :: r => x ++ sep ++ joinSep sep (y :: r)

/-- Prefix test: `isStart pat s` holds when `pat` is an initial segment of `s`
(Python `str.startswith`). -/
def isStart : List Char → List Char → Bool
  | [], _ => true
  | _ :: _, [] => false
  | a :: as, b :: bs => a == b && isStart as bs

/-- Substring test, Python's `pat in s`. -/
def containsSub (s pat : List Char) : Bool :=
  match s with
  | [] => pat.isEmpty
  | _ :: rest => isStart pat s || containsSub rest pat

/-- Python `s.find(pat)`: index of the first occurrence, `none` for `-1`. -/
def findSub (s pat : List Char) : Option Nat :=
  match s with
  | [] => if pat.isEmpty then some 0 else none
  | _ :: rest =>
    if isStart pat s then some 0 else (findSub rest pat).map (· + 1)

/-- Python `str.lower()` (ASCII range, as used by every call site). -/
def pyLower (s : List Char) : List Char := s.map Char.toLower

/-- Python `str.strip()`: drop leading and trailing whitespace. -/
def pyStrip (s : List Char) : List Char :=
  ((s.dropWhile isSpace).reverse.dropWhile isSpace).reverse

/-- Remove the inserted line-break characters from a wrapped text. -/
def removeNl (s : List Char) : List Char := s.filter (fun c => c ≠ '\n')

/-- Python `s.split(sep)` for a one-character separator, keeping empties. -/
def splitOnCharAux (sep : Char) : List Char → List Char → List (List Char)
  | [], acc => [acc.reverse]
  | c :: rest, acc =>
    if c == sep then acc.reverse :: splitOnCharAux sep rest []
    else splitOnCharAux sep rest (c :: acc)

/-- Python `s.split(sep)` for a one-character separator. -/
def splitOnChar (sep : Char) (s : List Char) : List (List Char) :=
  splitOnCharAux sep s []

/-- Insert `a` at position `i` (Python `list.insert(i, a)`). -/
def insertAt (i : Nat) (a : α) (l : List α) : List α :=
  l.take i ++ a :: l.drop i

/-- First-match lookup in an association list (a Python dict scanned in
insertion order). -/
def lookupA : List (List Char × List Char) → List Char → Option (List Char)
  | [], _ => none
  | (k, v) :: rest, key => if k = key then some v else lookupA rest key

/-- State machine behind `findQuotes`: `none` means outside a quoted span,
`some acc` means inside one with `acc` holding the span so far, reversed.
An immediately repeated quote reopens the span, matching how the regex
engine advances past a position where `[^"]+` cannot match. -/
def findQuotesAux : List Char → Option (List Char) → List (List Char)
  | [], _ => []
  | c :: rest, none =>
    if c == quoteD then findQuotesAux rest (some [])
    else findQuotesAux rest none
  | c :: rest, some acc =>
    if c == quoteD then
      if acc.isEmpty then findQuotesAux rest (some [])
      else acc.reverse :: findQuotesAux rest none
    else findQuotesAux rest (some (c :: acc))

/-- All spans matched by `re.findall(r'"([^"]+)"', text)`. -/
def findQuotes (s : List Char) : List (List Char) := findQuotesAux s none

/-! ## Line wrapper (`TextImage.parse_text`) -/

/-- The line-break element inserted into the word list by `parse_text`. -/
def nlMark : List Char := ['\n']

/-- The `for word in word_list` loop of `parse_text`, with the Python list
iterator made explicit: `i` is the iterator's cursor, `width` the running
`sentence_width`.  On overflow a `'\n'` element is inserted at the cursor
position (`word_list.insert(word_idx - 1, '\n')`), which shifts the current
word one slot right, so the live iterator visits it again — exactly the
source's behaviour.  `fuel` bounds the number of iterations; `none` means
the loop did not finish within `fuel` steps. -/
def wrapLoop (m : List Char → Nat) (maxW : Nat) :
    Nat → List (List Char) → Nat → Nat → Option (List (List Char))
  | 0, _, _, _ => none
  | fuel + 1, ws, i, width =>
    if h : i < ws.length then
      let w := ws[i]
      let width' := width + m w
      if width' > maxW then wrapLoop m maxW fuel (insertAt i nlMark ws) (i + 1) 0
      else wrapLoop m maxW fuel ws (i + 1) width'
    else some ws

/-- Suffix view of `wrapLoop`: only the words not yet passed by the cursor,
with the already-emitted prefix factored out. -/
def wrapSuffix (m : List Char → Nat) (maxW : Nat) :
    Nat → Nat → List (List Char) → Option (List (List Char))
  | 0, _, _ => none
  | _ + 1, _, [] => some []
  | fuel + 1, width, w :: rest =>
    if width + m w > maxW then
      (wrapSuffix m maxW fuel 0 (w :: rest)).map (fun out => nlMark :: out)
    else
      (wrapSuffix m maxW fuel (width + m w) rest).map (fun out => w :: out)

/-- The word list produced by `parse_text` before joining: words of the text,
each with its trailing space, with `'\n'` elements inserted by the loop. -/
def parseTextWs (m : List Char → Nat) (maxW : Nat) (fuel : Nat)
    (text : List Char) : Option (List (List Char)) :=
  wrapLoop m maxW fuel ((pySplit text).map (fun w => w ++ [' '])) 0 0

/-- `parse_text` with the width budget as a parameter:
`''.join(word_list).strip()` applied to the final word list. -/
def parseTextW (m : List Char → Nat) (maxW : Nat) (fuel : Nat)
    (text : List Char) : Option (List Char) :=
  (parseTextWs m maxW fuel text).map (fun ws => pyStrip ws.flatten)

/-- `TextImage.parse_text`: the width budget is
`IMG_WIDTH - SIDE_PAD * 2 = 1100 - 50`; `m` is `font.getsize(word)[0]`. -/
def TextImage.parse_text (m : List Char → Nat) (fuel : Nat)
    (text : List Char) : Option (List Char) :=
  parseTextW m (1100 - 25 * 2) fuel text

/-- Decompose a wrapped word list into its lines: maximal runs of word
elements separated by the inserted `'\n'` elements. -/
def linesOfWs : List (List Char) → List (List (List Char))
  | [] => [[]]
  | w :: rest =>
    match linesOfWs rest with
    | [] => [[]]
    | seg :: segs =>
      if w = nlMark then [] :: seg :: segs else (w :: seg) :: segs

/-- Measured width of one produced line: the sum of the per-word measured
widths (each word carries its trailing space). -/
def segWidth (m : List Char → Nat) (seg : List (List Char)) : Nat :=
  (seg.map m).sum

/-- `ClickbaitBot.get_sentences`: the line count of a parsed text,
`1 + text.count('\n')`. -/
def ClickbaitBot.get_sentences (text : List Char) : Nat :=
  1 + text.count '\n'

/-! ## Article classifier (`Article.check_article`) -/

/-- The rejection reasons of `check_article`, in the order the source tests
them. -/
inductive RejectReason where
  | too_short
  | too_long
  | tweets
  | lineup
deriving DecidableEq

/-- `self.text = ' '.join(self.body)` from `Article.__init__`. -/
def Article.mkText (body : List (List Char)) : List Char :=
  joinSep [' '] body

/-- `Article.check_article`, returning the reason of the first rejecting
rule, or `none` when the article is accepted (`is_valid = True`). -/
def Article.check_article (title preface text : List Char) :
    Option RejectReason :=
  if preface.length + text.length < 400 then some RejectReason.too_short
  else if preface.length + text.length > 2000 then some RejectReason.too_long
  else if containsSub (pyLower title) "twitter".toList ||
      containsSub (pyLower text) "greep uit de reacties".toList then
    some RejectReason.tweets
  else if isStart "de 11".toList (pyLower title) ||
      isStart "opstelling".toList (pyLower title) then
    some RejectReason.lineup
  else none

/-! ## Attribution resolver (`Article.get_source_url`) -/

/-- One entry of the external search response's `items` list; `link` is
`item.get('link')`, which may be absent. -/
structure SearchItem where
  link : Option (List Char)

/-- The journalist table of `get_source_url`, in dict insertion order. -/
def journalists : List (List Char × List Char) :=
  [("Rik Elfrink".toList, "@RikElfrink".toList),
   ("Mike Verweij".toList, "@MikeVerweij".toList),
   ("Krabbendam".toList, "@Mkrabby".toList),
   ("Fabrizio Romano".toList, "@FabrizioRomano".toList)]

/-- The outlet table of `get_source_url`, in dict insertion order. -/
def sourcesTable : List (List Char × List Char) :=
  [("Algemeen Dagblad".toList, "@ADnl".toList),
   ("Voetbal International".toList, "@VI_nl".toList),
   ("Telegraaf".toList, "@telegraaf".toList),
   ("Eindhovens Dagblad".toList, "@ED_Regio".toList),
   ("ESPN".toList, "@ESPNnl".toList),
   ("Parool".toList, "@parool".toList),
   ("RTV Rijnmond".toList, "@RTV_Rijnmond".toList),
   ("De Gelderlander".toList, "@DeGelderlander".toList),
   ("NOS".toList, "@NOSsport".toList),
   ("NU.nl".toList, "NUnl".toList),
   ("NRC".toList, "@nrc".toList)]

/-- The `for quote in quotes` loop of `Article.get_source_url`: skip quotes
shorter than 10 words, search with the first 32 words of the others, return
the first hit's link; when the list is exhausted, fall back to the matched
outlet's handle.  A failing search call propagates (the source has no
handler here). -/
def searchQuotes (search : List Char → Except Unit (Option (List SearchItem)))
    (fallback : List Char) : List (List Char) → Except Unit (Option (List Char))
  | [] => Except.ok (some fallback)
  | q :: rest =>
    let qw := (pySplit q).take 32
    if qw.length < 10 then searchQuotes search fallback rest
    else
      match search (quoteD :: (joinSep [' '] qw ++ [quoteD])) with
      | Except.error e => Except.error e
      | Except.ok none => searchQuotes search fallback rest
      | Except.ok (some []) => searchQuotes search fallback rest
      | Except.ok (some (item :: _)) => Except.ok item.link

/-- `Article.get_source_url`: journalist match, then outlet match, then
quote-based search.  `search` abstracts `requests.get(url).json()` followed
by `data.get('items')`; an `Except.error` is a raised exception. -/
def Article.get_source_url
    (search : List Char → Except Unit (Option (List SearchItem)))
    (title preface text : List Char) : Except Unit (Option (List Char)) :=
  let joined := joinSep [' '] [title, preface, text]
  match journalists.filter (fun p => containsSub joined p.1) with
  | (_, v) :: _ => Except.ok (some v)
  | [] =>
    match sourcesTable.filter (fun p => containsSub joined p.1) with
    | [] => Except.ok none
    | (_, v0) :: _ =>
      match findQuotes text with
      | [] => Except.ok none
      | q :: rest => searchQuotes search v0 (q :: rest)

/-! ## The earlier resolver variant (`ClickbaitBot.get_source_url`) -/

/-- One search item of the earlier variant: `link` is `item.get('link')`;
`published` abstracts the chain
`item.get('pagemap')['metatags'][0].get('article:published_time')` —
`none` means some step of that chain raised (caught by the `except`). -/
structure CBItem where
  link : Option (List Char)
  published : Option (List Char)

/-- A search response of the earlier variant: `items` is
`data.get("items")`. -/
structure CBResp where
  items : Option (List CBItem)

/-- The outlet list of `ClickbaitBot.get_source_url`. -/
def cbWebsites : List (List Char) :=
  ["Algemeen Dagblad".toList, "Voetbal International".toList,
   "Telegraaf".toList, "Eindhovens Dagblad".toList, "Fox Sports".toList]

/-- Python `'{}'.format(x)` on an optional value (`None` prints as
`"None"`). -/
def formatLinkOpt : Option (List Char) → List Char
  | some l => l
  | none => "None".toList

/-- The body of the `try` block of `ClickbaitBot.get_source_url`: search
only when the quote is longer than 25 characters, truncated to 500; accept
the first item's link only when its published date equals today.  An
`Except.error` is an exception raised inside the `try` (a failing search
call, or subscripting a missing `pagemap` chain). -/
def cbAttempt (search : List Char → Except Unit CBResp) (today : List Char)
    (quote : List Char) : Except Unit (Option (List Char)) :=
  if quote.length > 25 then
    match search (quote.take 500) with
    | Except.error e => Except.error e
    | Except.ok resp =>
      match resp.items with
      | none => Except.ok none
      | some [] => Except.ok none
      | some (item :: _) =>
        match item.published with
        | none => Except.error ()
        | some d =>
          if d.take 10 = today then
            Except.ok (some (pinChar :: ' ' :: formatLinkOpt item.link))
          else Except.ok none
  else Except.ok none

/-- `ClickbaitBot.get_source_url`: single quote (`text.split('"')[1]`),
attempted as in `cbAttempt`; the whole attempt is wrapped in
`try/except Exception`, so a raised error is caught, logged and the
function falls through to `return None`. -/
def ClickbaitBot.get_source_url (search : List Char → Except Unit CBResp)
    (today : List Char) (body : List (List Char)) :
    Except Unit (Option (List Char)) :=
  if !(cbWebsites.any (fun w => containsSub body.flatten w)) ||
      !(containsSub body.flatten [quoteD]) then Except.ok none
  else
    match cbAttempt search today
        (((splitOnChar quoteD body.flatten).get? 1).getD []) with
    | Except.error _ => Except.ok none
    | Except.ok v => Except.ok v

/-! ## Caption composer (`Tweet.create_tweet`) -/

/-- `tweet.startswith(("'", '"', '‘'))`. -/
def startsQ (t : List Char) : Bool :=
  isStart [quoteS] t || isStart [quoteD] t || isStart [lquote] t

/-- `tweet.endswith(("'", '"', '’'))`. -/
def endsQ (t : List Char) : Bool :=
  match t.getLast? with
  | some c => c == quoteS || c == quoteD || c == rquote
  | none => false

/-- One iteration of the keyword loop of `create_tweet`: the state is the
working tweet text and the accumulated overflow keyword list. -/
def hashtagStep (dict : List (List Char × List Char))
    (st : List Char × List (List Char)) (kw : List Char) :
    List Char × List (List Char) :=
  match lookupA dict kw with
  | some tag =>
    match findSub (pyLower st.1) (pyLower kw) with
    | some i =>
      if (pySplit kw).length = 1 then (insertAt i '#' st.1, st.2)
      else (st.1, st.2 ++ [tag])
    | none => (st.1, st.2 ++ [tag])
  | none =>
    if (pySplit kw).any (fun w => containsSub st.1 w) then st
    else (st.1, st.2 ++ [kw])

/-- `Tweet.create_tweet`: quote the title if needed, splice or collect
hashtags per keyword, append the source paragraph and the parenthesized
keyword paragraph. -/
def Tweet.create_tweet (dict : List (List Char × List Char))
    (title : List Char) (keywords : List (List Char))
    (source_url : Option (List Char)) : List Char :=
  let tweet0 :=
    if !(startsQ title) || !(endsQ title) then quoteS :: (title ++ [quoteS])
    else title
  let st := keywords.foldl (hashtagStep dict) (tweet0, [])
  let tweet1 :=
    match source_url with
    | some u => st.1 ++ '\n' :: '\n' :: pinChar :: ' ' :: u
    | none => st.1
  match st.2 with
  | [] => tweet1
  | k :: ks =>
    tweet1 ++ '\n' :: '\n' :: '(' :: (joinSep ", ".toList (k :: ks) ++ [')'])

/-! ## Lemmas about the wrapper loop -/

lemma insertAt_length (i : Nat) (a : α) (l : List α) :
    (insertAt i a l).length = l.length + 1 := by
  simp [insertAt]
  omega

lemma take_append_cons (l₁ : List α) (a : α) (l₂ : List α) :
    (l₁ ++ a :: l₂).take (l₁.length + 1) = l₁ ++ [a] := by
  induction l₁ with
  | nil => rfl
  | cons x xs ihx => simp [ihx]

lemma drop_append_cons (l₁ : List α) (a : α) (l₂ : List α) :
    (l₁ ++ a :: l₂).drop (l₁.length + 1) = l₂ := by
  induction l₁ with
  | nil => rfl
  | cons x xs ihx => simp [ihx]

lemma insertAt_take_succ (i : Nat) (a : α) (l : List α) (h : i ≤ l.length) :
    (insertAt i a l).take (i + 1) = l.take i ++ [a] := by
  have hl : (l.take i).length = i := by simp [Nat.min_eq_left h]
  calc (insertAt i a l).take (i + 1)
      = (l.take i ++ a :: l.drop i).take ((l.take i).length + 1) := by
        rw [hl]; rfl
    _ = l.take i ++ [a] := take_append_cons _ _ _

lemma insertAt_drop_succ (i : Nat) (a : α) (l : List α) (h : i ≤ l.length) :
    (insertAt i a l).drop (i + 1) = l.drop i := by
  have hl : (l.take i).length = i := by simp [Nat.min_eq_left h]
  calc (insertAt i a l).drop (i + 1)
      = (l.take i ++ a :: l.drop i).drop ((l.take i).length + 1) := by
        rw [hl]; rfl
    _ = l.drop i := drop_append_cons _ _ _

lemma wrapLoop_eq (m : List Char → Nat) (maxW : Nat) :
    ∀ (fuel : Nat) (ws : List (List Char)) (i width : Nat), i ≤ ws.length →
    wrapLoop m maxW fuel ws i width =
      (wrapSuffix m maxW fuel width (ws.drop i)).map
        (fun out => ws.take i ++ out) := by
  intro fuel
  induction fuel with
  | zero => intro ws i width _; rfl
  | succ fuel ih =>
    intro ws i width h
    by_cases hi : i < ws.length
    · have hdrop : ws.drop i = ws[i] :: ws.drop (i + 1) :=
        List.drop_eq_getElem_cons hi
      by_cases ht : width + m ws[i] > maxW
      · have hlhs : wrapLoop m maxW (fuel + 1) ws i width =
            wrapLoop m maxW fuel (insertAt i nlMark ws) (i + 1) 0 := by
          simp only [wrapLoop, dif_pos hi, if_pos ht]
        have hle : i + 1 ≤ (insertAt i nlMark ws).length := by
          rw [insertAt_length]; omega
        rw [hlhs, ih _ (i + 1) 0 hle,
          insertAt_take_succ _ _ _ (le_of_lt hi),
          insertAt_drop_succ _ _ _ (le_of_lt hi), hdrop]
        have hrhs : wrapSuffix m maxW (fuel + 1) width
              (ws[i] :: ws.drop (i + 1)) =
            (wrapSuffix m maxW fuel 0 (ws[i] :: ws.drop (i + 1))).map
              (fun out => nlMark :: out) := by
          simp only [wrapSuffix, if_pos ht]
        rw [hrhs, Option.map_map]
        cases wrapSuffix m maxW fuel 0 (ws[i] :: ws.drop (i + 1)) with
        | none => rfl
        | some out => simp
      · have hlhs : wrapLoop m maxW (fuel + 1) ws i width =
            wrapLoop m maxW fuel ws (i + 1) (width + m ws[i]) := by
          simp only [wrapLoop, dif_pos hi, if_neg ht]
        have htake : ws.take (i + 1) = ws.take i ++ [ws[i]] := by
          rw [List.take_succ]
          simp [List.getElem?_eq_getElem hi]
        rw [hlhs, ih _ (i + 1) _ hi, htake, hdrop]
        have hrhs : wrapSuffix m maxW (fuel + 1) width
              (ws[i] :: ws.drop (i + 1)) =
            (wrapSuffix m maxW fuel (width + m ws[i]) (ws.drop (i + 1))).map
              (fun out => ws[i] :: out) := by
          simp only [wrapSuffix, if_neg ht]
        rw [hrhs, Option.map_map]
        cases wrapSuffix m maxW fuel (width + m ws[i]) (ws.drop (i + 1)) with
        | none => rfl
        | some out =>
          show some (List.take i ws ++ [ws[i]] ++ out)
              = some (List.take i ws ++ ws[i] :: out)
          rw [List.append_assoc]
          rfl
    · have hie : i = ws.length := by omega
      subst hie
      have hlhs : wrapLoop m maxW (fuel + 1) ws ws.length width = some ws := by
        simp only [wrapLoop, dif_neg hi]
      rw [hlhs]
      simp [wrapSuffix]

lemma wrapSuffix_none_of_overwide (m : List Char → Nat) (maxW : Nat)
    (w : List Char) (hw : m w > maxW) :
    ∀ (fuel width : Nat) (rest : List (List Char)),
    wrapSuffix m maxW fuel width (w :: rest) = none := by
  intro fuel
  induction fuel with
  | zero => intro width rest; rfl
  | succ fuel ih =>
    intro width rest
    have ht : width + m w > maxW := by omega
    simp only [wrapSuffix, if_pos ht, ih 0 rest, Option.map_none']

lemma linesOfWs_ne_nil : ∀ ws : List (List Char), linesOfWs ws ≠ [] := by
  intro ws
  cases ws with
  | nil => simp [linesOfWs]
  | cons w rest =>
    simp only [linesOfWs]
    cases linesOfWs rest with
    | nil => simp
    | cons seg segs =>
      by_cases hw : w = nlMark
      · simp [hw]
      · simp [hw]

lemma wrapSuffix_widthBound (m : List Char → Nat) (maxW : Nat) :
    ∀ (fuel width : Nat) (ws out : List (List Char)),
    wrapSuffix m maxW fuel width ws = some out → width ≤ maxW →
    ∃ seg segs, linesOfWs out = seg :: segs ∧
      width + segWidth m seg ≤ maxW ∧
      ∀ s ∈ segs, segWidth m s ≤ maxW := by
  intro fuel
  induction fuel with
  | zero => intro width ws out hout; cases hout
  | succ fuel ih =>
    intro width ws out hout hwle
    cases ws with
    | nil =>
      have : out = [] := by
        simpa only [wrapSuffix, Option.some.injEq] using hout.symm
      subst this
      exact ⟨[], [], rfl, by simpa [segWidth], by simp⟩
    | cons w rest =>
      by_cases ht : width + m w > maxW
      · simp only [wrapSuffix, if_pos ht] at hout
        cases hrec : wrapSuffix m maxW fuel 0 (w :: rest) with
        | none => rw [hrec] at hout; cases hout
        | some out' =>
          rw [hrec] at hout
          simp only [Option.map_some', Option.some.injEq] at hout
          subst hout
          obtain ⟨seg, segs, hl, hseg, hsegs⟩ :=
            ih 0 (w :: rest) out' hrec (Nat.zero_le _)
          refine ⟨[], seg :: segs, ?_, by simpa [segWidth], ?_⟩
          · simp [linesOfWs, hl]
          · intro s hs
            rcases List.mem_cons.mp hs with h1 | h2
            · subst h1; omega
            · exact hsegs s h2
      · simp only [wrapSuffix, if_neg ht] at hout
        cases hrec : wrapSuffix m maxW fuel (width + m w) rest with
        | none => rw [hrec] at hout; cases hout
        | some out' =>
          rw [hrec] at hout
          simp only [Option.map_some', Option.some.injEq] at hout
          subst hout
          obtain ⟨seg, segs, hl, hseg, hsegs⟩ :=
            ih (width + m w) rest out' hrec (by omega)
          by_cases hwnl : w = nlMark
          · refine ⟨[], seg :: segs, ?_, by simpa [segWidth], ?_⟩
            · simp only [linesOfWs, hl, if_pos hwnl]
            · intro s hs
              rcases List.mem_cons.mp hs with h1 | h2
              · subst h1; omega
              · exact hsegs s h2
          · refine ⟨w :: seg, segs, ?_, ?_, hsegs⟩
            · simp only [linesOfWs, hl, if_neg hwnl]
            · simp only [segWidth, List.map_cons, List.sum_cons]
              simp only [segWidth] at hseg
              omega

lemma wrapSuffix_filter (m : List Char → Nat) (maxW : Nat) :
    ∀ (fuel width : Nat) (ws out : List (List Char)),
    wrapSuffix m maxW fuel width ws = some out →
    out.filter (fun e => e ≠ nlMark) = ws.filter (fun e => e ≠ nlMark) := by
  intro fuel
  induction fuel with
  | zero => intro width ws out hout; cases hout
  | succ fuel ih =>
    intro width ws out hout
    cases ws with
    | nil =>
      have : out = [] := by
        simpa only [wrapSuffix, Option.some.injEq] using hout.symm
      subst this; rfl
    | cons w rest =>
      by_cases ht : width + m w > maxW
      · simp only [wrapSuffix, if_pos ht] at hout
        cases hrec : wrapSuffix m maxW fuel 0 (w :: rest) with
        | none => rw [hrec] at hout; cases hout
        | some out' =>
          rw [hrec] at hout
          simp only [Option.map_some', Option.some.injEq] at hout
          subst hout
          have := ih 0 (w :: rest) out' hrec
          simpa [List.filter_cons] using this
      · simp only [wrapSuffix, if_neg ht] at hout
        cases hrec : wrapSuffix m maxW fuel (width + m w) rest with
        | none => rw [hrec] at hout; cases hout
        | some out' =>
          rw [hrec] at hout
          simp only [Option.map_some', Option.some.injEq] at hout
          subst hout
          have := ih (width + m w) rest out' hrec
          simp only [List.filter_cons, this]

lemma wrapSuffix_mem (m : List Char → Nat) (maxW : Nat) :
    ∀ (fuel width : Nat) (ws out : List (List Char)),
    wrapSuffix m maxW fuel width ws = some out →
    ∀ e ∈ out, e = nlMark ∨ e ∈ ws := by
  intro fuel
  induction fuel with
  | zero => intro width ws out hout; cases hout
  | succ fuel ih =>
    intro width ws out hout
    cases ws with
    | nil =>
      have : out = [] := by
        simpa only [wrapSuffix, Option.some.injEq] using hout.symm
      subst this; intro e he; cases he
    | cons w rest =>
      by_cases ht : width + m w > maxW
      · simp only [wrapSuffix, if_pos ht] at hout
        cases hrec : wrapSuffix m maxW fuel 0 (w :: rest) with
        | none => rw [hrec] at hout; cases hout
        | some out' =>
          rw [hrec] at hout
          simp only [Option.map_some', Option.some.injEq] at hout
          subst hout
          intro e he
          rcases List.mem_cons.mp he with h1 | h2
          · exact Or.inl h1
          · exact ih 0 (w :: rest) out' hrec e h2
      · simp only [wrapSuffix, if_neg ht] at hout
        cases hrec : wrapSuffix m maxW fuel (width + m w) rest with
        | none => rw [hrec] at hout; cases hout
        | some out' =>
          rw [hrec] at hout
          simp only [Option.map_some', Option.some.injEq] at hout
          subst hout
          intro e he
          rcases List.mem_cons.mp he with h1 | h2
          · exact Or.inr (by simp [h1])
          · rcases ih (width + m w) rest out' hrec e h2 with h3 | h4
            · exact Or.inl h3
            · exact Or.inr (List.mem_cons_of_mem _ h4)

/-! ## Lemmas about Python `split`, `strip` and the word lists -/

lemma wordsAux_mem (s : List Char) :
    ∀ acc, (∀ c ∈ acc, isSpace c = false) →
    ∀ w ∈ wordsAux s acc, w ≠ [] ∧ ∀ c ∈ w, isSpace c = false := by
  induction s with
  | nil =>
    intro acc hacc w hw
    simp only [wordsAux] at hw
    by_cases he : acc.isEmpty
    · simp [he] at hw
    · simp only [if_neg he, List.mem_singleton] at hw
      subst hw
      constructor
      · simpa [List.isEmpty_iff] using he
      · intro c hc
        exact hacc c (List.mem_reverse.mp hc)
  | cons c rest ih =>
    intro acc hacc w hw
    simp only [wordsAux] at hw
    by_cases hc : isSpace c
    · rw [if_pos hc] at hw
      by_cases he : acc.isEmpty
      · rw [if_pos he] at hw
        exact ih [] (by simp) w hw
      · rw [if_neg he] at hw
        rcases List.mem_cons.mp hw with h1 | h2
        · subst h1
          constructor
          · simpa [List.isEmpty_iff] using he
          · intro d hd
            exact hacc d (List.mem_reverse.mp hd)
        · exact ih [] (by simp) w h2
    · rw [if_neg hc] at hw
      refine ih (c :: acc) ?_ w hw
      intro d hd
      rcases List.mem_cons.mp hd with h1 | h2
      · subst h1; simpa using hc
      · exact hacc d h2

lemma pySplit_mem (s : List Char) :
    ∀ w ∈ pySplit s, w ≠ [] ∧ ∀ c ∈ w, isSpace c = false :=
  wordsAux_mem s [] (by simp)

lemma wordsAux_allspace (t : List Char) (ht : ∀ c ∈ t, isSpace c = true) :
    wordsAux t [] = [] := by
  induction t with
  | nil => rfl
  | cons c rest ih =>
    have hc : isSpace c = true := ht c (by simp)
    simp only [wordsAux, if_pos hc, List.isEmpty_nil, if_pos rfl]
    exact ih (fun d hd => ht d (List.mem_cons_of_mem _ hd))

lemma wordsAux_append_space (t : List Char)
    (ht : ∀ c ∈ t, isSpace c = true) :
    ∀ (s acc : List Char), wordsAux (s ++ t) acc = wordsAux s acc := by
  intro s
  induction s with
  | nil =>
    intro acc
    simp only [List.nil_append, wordsAux]
    by_cases he : acc.isEmpty
    · have hae : acc = [] := List.isEmpty_iff.mp he
      subst hae
      simp only [List.isEmpty_nil, if_pos rfl]
      exact wordsAux_allspace t ht
    · rw [if_neg he]
      cases t with
      | nil => simp only [wordsAux, if_neg he]
      | cons c rest =>
        have hc : isSpace c = true := ht c (by simp)
        simp only [wordsAux, if_pos hc, if_neg he]
        rw [wordsAux_allspace rest
          (fun d hd => ht d (List.mem_cons_of_mem _ hd))]
  | cons c rest ih =>
    intro acc
    simp only [List.cons_append, wordsAux, List.append_eq]
    by_cases hc : isSpace c
    · rw [if_pos hc, if_pos hc]
      by_cases he : acc.isEmpty
      · rw [if_pos he, if_pos he, ih]
      · rw [if_neg he, if_neg he, ih]
    · rw [if_neg hc, if_neg hc, ih]

lemma wordsAux_prepend_space (t : List Char)
    (ht : ∀ c ∈ t, isSpace c = true) (s : List Char) :
    wordsAux (t ++ s) [] = wordsAux s [] := by
  induction t with
  | nil => rfl
  | cons c rest ih =>
    have hc : isSpace c = true := ht c (by simp)
    simp only [List.cons_append, wordsAux, if_pos hc, List.isEmpty_nil,
      if_pos rfl]
    exact ih (fun d hd => ht d (List.mem_cons_of_mem _ hd))

lemma wordsAux_word (w : List Char) (hw : ∀ c ∈ w, isSpace c = false) :
    ∀ (s acc : List Char), wordsAux (w ++ s) acc =
      wordsAux s (w.reverse ++ acc) := by
  induction w with
  | nil => intro s acc; rfl
  | cons c rest ih =>
    intro s acc
    have hc : isSpace c = false := hw c (by simp)
    simp only [List.cons_append, wordsAux, hc, Bool.false_eq_true,
      if_false, List.append_eq]
    rw [ih (fun d hd => hw d (List.mem_cons_of_mem _ hd)) s (c :: acc)]
    simp

lemma pySplit_flatten_words :
    ∀ words : List (List Char),
    (∀ w ∈ words, w ≠ [] ∧ ∀ c ∈ w, isSpace c = false) →
    pySplit (words.map (fun w => w ++ [' '])).flatten = words := by
  intro words
  induction words with
  | nil => intro _; rfl
  | cons w rest ih =>
    intro hws
    obtain ⟨hne, hnsp⟩ := hws w (by simp)
    have hrest := fun v hv => hws v (List.mem_cons_of_mem _ hv)
    simp only [List.map_cons, List.flatten_cons, pySplit]
    rw [List.append_assoc, wordsAux_word w hnsp]
    have hsp : isSpace ' ' = true := by rfl
    have hacc : ¬ (w.reverse ++ ([] : List Char)).isEmpty := by
      simp [List.isEmpty_iff, hne]
    simp only [List.cons_append, List.nil_append, wordsAux, if_pos hsp]
    rw [if_neg (by simpa using hacc)]
    simp only [List.append_nil, List.reverse_reverse, List.append_eq,
      List.nil_append]
    exact congrArg (w :: ·) (ih hrest)

lemma removeNl_flatten (out : List (List Char))
    (hm : ∀ e ∈ out, e = nlMark ∨ ∀ c ∈ e, c ≠ '\n') :
    removeNl out.flatten = (out.filter (fun e => e ≠ nlMark)).flatten := by
  induction out with
  | nil => rfl
  | cons e rest ih =>
    have hrest := fun v hv => hm v (List.mem_cons_of_mem _ hv)
    rcases hm e (by simp) with h1 | h2
    · subst h1
      have h0 : List.filter (fun c => decide (c ≠ '\n')) nlMark = [] := by rfl
      calc removeNl (nlMark :: rest).flatten
          = List.filter (fun c => decide (c ≠ '\n')) nlMark ++
              removeNl rest.flatten := by
            simp only [List.flatten_cons, removeNl, List.filter_append]
        _ = (rest.filter (fun x => decide (x ≠ nlMark))).flatten := by
            rw [h0, ih hrest]; rfl
        _ = ((nlMark :: rest).filter (fun x => decide (x ≠ nlMark))).flatten
            := by simp
    · have h1 : List.filter (fun c => decide (c ≠ '\n')) e = e :=
        List.filter_eq_self.mpr (fun c hc => by simpa using h2 c hc)
      have h2' : e ≠ nlMark := by
        intro hcon
        exact h2 '\n' (by rw [hcon]; simp [nlMark]) rfl
      calc removeNl (e :: rest).flatten
          = List.filter (fun c => decide (c ≠ '\n')) e ++
              removeNl rest.flatten := by
            simp only [List.flatten_cons, removeNl, List.filter_append]
        _ = e ++ (rest.filter (fun x => decide (x ≠ nlMark))).flatten := by
            rw [h1, ih hrest]
        _ = ((e :: rest).filter (fun x => decide (x ≠ nlMark))).flatten := by
            simp [h2']

lemma pyStrip_decomp (s : List Char) :
    ∃ a b, s = a ++ pyStrip s ++ b ∧
      (∀ c ∈ a, isSpace c = true) ∧ (∀ c ∈ b, isSpace c = true) := by
  refine ⟨s.takeWhile isSpace,
    ((s.dropWhile isSpace).reverse.takeWhile isSpace).reverse, ?_, ?_, ?_⟩
  · conv_lhs => rw [← List.takeWhile_append_dropWhile (p := isSpace) (l := s)]
    rw [List.append_assoc]
    congr 1
    conv_lhs => rw [← List.reverse_reverse (s.dropWhile isSpace),
      ← List.takeWhile_append_dropWhile
        (p := isSpace) (l := (s.dropWhile isSpace).reverse)]
    rw [List.reverse_append]
    rfl
  · intro c hc
    exact List.mem_takeWhile_imp hc
  · intro c hc
    exact List.mem_takeWhile_imp (List.mem_reverse.mp hc)

lemma pySplit_around (a x b : List Char)
    (ha : ∀ c ∈ a, isSpace c = true) (hb : ∀ c ∈ b, isSpace c = true) :
    pySplit (a ++ x ++ b) = pySplit x := by
  unfold pySplit
  rw [List.append_assoc, wordsAux_prepend_space a ha,
    wordsAux_append_space b hb]

lemma removeNl_allspace (a : List Char) (ha : ∀ c ∈ a, isSpace c = true) :
    ∀ c ∈ removeNl a, isSpace c = true :=
  fun c hc => ha c (List.mem_of_mem_filter hc)

lemma parseTextW_preserves_words (m : List Char → Nat) (maxW fuel : Nat)
    (text out : List Char) (h : parseTextW m maxW fuel text = some out) :
    pySplit (removeNl out) = pySplit text := by
  unfold parseTextW parseTextWs at h
  set wl := (pySplit text).map (fun w => w ++ [' ']) with hwl
  rw [wrapLoop_eq m maxW fuel wl 0 0 (Nat.zero_le _), List.drop_zero,
    List.take_zero] at h
  cases hws : wrapSuffix m maxW fuel 0 wl with
  | none => rw [hws] at h; cases h
  | some wsOut =>
    rw [hws] at h
    simp only [Option.map_some', List.nil_append, Option.some.injEq] at h
    have hwords := pySplit_mem text
    have hnomark : ∀ e ∈ wl, e ≠ nlMark := by
      intro e he hcon
      obtain ⟨w, hwmem, rfl⟩ := List.mem_map.mp he
      have hlen : w.length + 1 = 1 := by
        have := congrArg List.length hcon
        simpa [nlMark] using this
      exact (hwords w hwmem).1 (List.length_eq_zero.mp (by omega))
    have hfwl : wl.filter (fun e => e ≠ nlMark) = wl :=
      List.filter_eq_self.mpr (fun e he => decide_eq_true (hnomark e he))
    have hA : wsOut.filter (fun e => e ≠ nlMark) = wl := by
      rw [wrapSuffix_filter m maxW fuel 0 wl wsOut hws, hfwl]
    have hB : ∀ e ∈ wsOut, e = nlMark ∨ ∀ c ∈ e, c ≠ '\n' := by
      intro e he
      rcases wrapSuffix_mem m maxW fuel 0 wl wsOut hws e he with h1 | h2
      · exact Or.inl h1
      · refine Or.inr ?_
        obtain ⟨w, hwmem, rfl⟩ := List.mem_map.mp h2
        intro c hc hcon
        subst hcon
        rcases List.mem_append.mp hc with h3 | h4
        · have := (hwords w hwmem).2 _ h3
          simp [isSpace] at this
        · simp at h4
    have hC : removeNl wsOut.flatten = wl.flatten := by
      rw [removeNl_flatten wsOut hB, hA]
    obtain ⟨a, b, hdec, ha, hb⟩ := pyStrip_decomp wsOut.flatten
    rw [h] at hdec
    have hsplit : pySplit wl.flatten = pySplit (removeNl out) := by
      have : removeNl wsOut.flatten =
          removeNl a ++ removeNl out ++ removeNl b := by
        rw [hdec]
        simp only [removeNl, List.filter_append]
      rw [this] at hC
      rw [← hC]
      exact pySplit_around (removeNl a) (removeNl out) (removeNl b)
        (removeNl_allspace a ha) (removeNl_allspace b hb)
    have hjoin : pySplit wl.flatten = pySplit text := by
      rw [hwl]
      exact pySplit_flatten_words (pySplit text) hwords
    rw [← hsplit, hjoin]

/-! ## Claims about the line wrapper -/

/-- A word-measuring function for witnesses: 100 pixels per character. -/
def mEx (w : List Char) : Nat := 100 * w.length

/-- A word-measuring function under which the word `lawine` (with its
trailing space) measures 1400 pixels, wider than the 1050-pixel budget. -/
def mWide (w : List Char) : Nat := 200 * w.length

/-- C1: the claim says `wrap` always terminates and puts an over-wide word
alone on its own line.  The code instead loops forever on such a word: the
`list.insert` at the cursor shifts the word right, the live iterator
re-visits it, the width check fires again, and so on.  Formally: for every
iteration bound `fuel`, the loop has not finished — `parse_text` at the
failing input is `none` for all fuel. -/
theorem claim_c1_overwide_word_loops_forever :
    ∀ fuel : Nat, TextImage.parse_text mWide fuel "lawine".toList = none := by
  intro fuel
  unfold TextImage.parse_text parseTextW parseTextWs
  have hwl : (pySplit "lawine".toList).map (fun w => w ++ [' ']) =
      ["lawine ".toList] := by decide
  rw [hwl, wrapLoop_eq mWide (1100 - 25 * 2) fuel _ 0 0 (Nat.zero_le _),
    List.drop_zero,
    wrapSuffix_none_of_overwide mWide (1100 - 25 * 2) "lawine ".toList
      (by decide) fuel 0 []]
  rfl

/-- C4 counterexample: the claim says wrapping the empty string yields zero
lines and zero pixel height; the wrapped output is the empty string, whose
line count as the code itself computes it (`get_sentences`, `1 +
text.count('\n')`) is 1, not 0. -/
theorem claim_c4_counterexample :
    TextImage.parse_text mEx 1 [] = some [] ∧
    ClickbaitBot.get_sentences [] ≠ 0 := by
  exact ⟨rfl, by decide⟩

/-- C4 (amended): wrapping the empty text yields the empty string — a
single empty line with no inserted line breaks; the code's line count of
that output (`get_sentences`) is 1, so the derived height is one per-line
height, not zero. -/
theorem claim_c4_empty_text (m : List Char → Nat) (fuel : Nat) :
    TextImage.parse_text m (fuel + 1) [] = some [] ∧
    ClickbaitBot.get_sentences [] = 1 := by
  exact ⟨rfl, rfl⟩

/-- C7: in every run of `parse_text` that finishes, every produced line has
measured width — the sum of the per-word measured widths, trailing spaces
included — at most the budget, unless it is a single word wider than the
budget alone on its line.  (The proof establishes the first disjunct
outright: a finishing run never produces an over-wide line, because an
over-wide word would have made the loop run forever.) -/
theorem claim_c7_line_width_bound (m : List Char → Nat) (maxW fuel : Nat)
    (text : List Char) (ws : List (List Char))
    (h : parseTextWs m maxW fuel text = some ws) :
    ∀ seg ∈ linesOfWs ws,
      segWidth m seg ≤ maxW ∨ ∃ w, seg = [w] ∧ m w > maxW := by
  unfold parseTextWs at h
  rw [wrapLoop_eq m maxW fuel _ 0 0 (Nat.zero_le _), List.drop_zero,
    List.take_zero] at h
  cases hws : wrapSuffix m maxW fuel 0
      ((pySplit text).map (fun w => w ++ [' '])) with
  | none => rw [hws] at h; cases h
  | some wsOut =>
    rw [hws] at h
    simp only [Option.map_some', List.nil_append, Option.some.injEq] at h
    subst h
    obtain ⟨seg0, segs, hl, h0, hrest⟩ :=
      wrapSuffix_widthBound m maxW fuel 0 _ wsOut hws (Nat.zero_le _)
    intro seg hseg
    rw [hl] at hseg
    rcases List.mem_cons.mp hseg with h1 | h2
    · subst h1; exact Or.inl (by omega)
    · exact Or.inl (hrest seg h2)

/-- C7 witness: a concrete finished run, with the bound evaluated on its
single produced line. -/
theorem claim_c7_witness :
    segWidth mEx ["ab ".toList, "cd ".toList] ≤ 1050 ∨
      ∃ w, [("ab ".toList : List Char), "cd ".toList] = [w] ∧ mEx w > 1050 :=
  claim_c7_line_width_bound mEx 1050 10 "ab cd".toList
    ["ab ".toList, "cd ".toList] (by decide)
    ["ab ".toList, "cd ".toList] (by decide)

/-- C9: whenever `parse_text` finishes, the wrapped output preserves the
input's words exactly: deleting the inserted `'\n'` characters and
splitting on whitespace gives precisely the whitespace-split word sequence
of the input, in order. -/
theorem claim_c9_words_preserved (m : List Char → Nat) (maxW fuel : Nat)
    (text out : List Char) (h : parseTextW m maxW fuel text = some out) :
    pySplit (removeNl out) = pySplit text :=
  parseTextW_preserves_words m maxW fuel text out h

/-- C9 witness: a concrete finished run. -/
theorem claim_c9_witness :
    pySplit (removeNl "ab cd".toList) = pySplit "ab cd".toList :=
  claim_c9_words_preserved mEx 1050 10 "ab cd".toList "ab cd".toList
    (by decide)

/-! ## Claims about the article classifier -/

/-- C5: the length rules count characters of `preface` plus the joined body
text: exactly 400 and exactly 2000 pass both length rules, 399 or less is
rejected as too short, 2001 or more as too long. -/
theorem claim_c5_length_bounds (title preface text : List Char) :
    (preface.length + text.length ≤ 399 →
      Article.check_article title preface text = some RejectReason.too_short) ∧
    (preface.length + text.length ≥ 2001 →
      Article.check_article title preface text = some RejectReason.too_long) ∧
    (preface.length + text.length = 400 ∨ preface.length + text.length = 2000 →
      Article.check_article title preface text ≠ some RejectReason.too_short ∧
      Article.check_article title preface text ≠ some RejectReason.too_long)
    := by
  unfold Article.check_article
  refine ⟨?_, ?_, ?_⟩
  · intro h
    rw [if_pos (by omega)]
  · intro h
    rw [if_neg (by omega), if_pos (by omega)]
  · intro h
    rw [if_neg (by omega), if_neg (by omega)]
    constructor
    · split
      · simp
      · split
        · simp
        · simp
    · split
      · simp
      · split
        · simp
        · simp

/-- C5 witness: the boundary values 0 (too short), 2001 (too long), 400 and
2000 (pass the length rules) at concrete articles. -/
theorem claim_c5_witness :
    Article.check_article [] [] [] = some RejectReason.too_short ∧
    Article.check_article [] [] (List.replicate 2001 'a') =
      some RejectReason.too_long ∧
    (Article.check_article [] [] (List.replicate 400 'a') ≠
        some RejectReason.too_short ∧
      Article.check_article [] [] (List.replicate 400 'a') ≠
        some RejectReason.too_long) ∧
    (Article.check_article [] [] (List.replicate 2000 'a') ≠
        some RejectReason.too_short ∧
      Article.check_article [] [] (List.replicate 2000 'a') ≠
        some RejectReason.too_long) := by
  refine ⟨(claim_c5_length_bounds [] [] []).1 (by decide),
    (claim_c5_length_bounds [] [] _).2.1 ?_,
    (claim_c5_length_bounds [] [] _).2.2 (Or.inl ?_),
    (claim_c5_length_bounds [] [] _).2.2 (Or.inr ?_)⟩ <;>
    (simp only [List.length_nil, List.length_replicate]; try omega)

/-- C6: an article whose lowercase title contains `twitter`, or whose
lowercase joined body text contains `greep uit de reacties`, is always
rejected (`check_article` never accepts it), regardless of its other
content. -/
theorem claim_c6_twitter_reject (title preface text : List Char)
    (h : containsSub (pyLower title) "twitter".toList = true ∨
      containsSub (pyLower text) "greep uit de reacties".toList = true) :
    Article.check_article title preface text ≠ none := by
  have hc3 : (containsSub (pyLower title) "twitter".toList ||
      containsSub (pyLower text) "greep uit de reacties".toList) = true := by
    rcases h with h1 | h1
    · rw [h1]; rfl
    · rw [h1]; exact Bool.or_true _
  unfold Article.check_article
  by_cases h1 : preface.length + text.length < 400
  · rw [if_pos h1]; simp
  · rw [if_neg h1]
    by_cases h2 : preface.length + text.length > 2000
    · rw [if_pos h2]; simp
    · rw [if_neg h2, if_pos hc3]; simp

/-- C6 witness: a title containing `Twitter` is rejected. -/
theorem claim_c6_witness :
    Article.check_article "Rel op Twitter".toList [] [] ≠ none :=
  claim_c6_twitter_reject "Rel op Twitter".toList [] []
    (Or.inl (by decide))

/-- Length of a `' '.join`: the paragraph lengths plus one separator
between each adjacent pair. -/
lemma joinSep_space_length :
    ∀ body : List (List Char), body ≠ [] →
    (joinSep [' '] body).length =
      (body.map List.length).sum + (body.length - 1) := by
  intro body
  induction body with
  | nil => intro h; exact absurd rfl h
  | cons p rest ih =>
    intro _
    cases rest with
    | nil => simp [joinSep]
    | cons q r =>
      have hr := ih (by simp)
      have hunfold : joinSep [' '] (p :: q :: r) =
          p ++ [' '] ++ joinSep [' '] (q :: r) := rfl
      rw [hunfold, List.length_append, List.length_append, hr]
      have hsum : ((p :: q :: r).map List.length).sum
          = p.length + ((q :: r).map List.length).sum := by simp
      have hlen : (p :: q :: r).length - 1 = ((q :: r).length - 1) + 1 := by
        simp only [List.length_cons]
        omega
      have hone : ([' '] : List Char).length = 1 := rfl
      rw [hsum, hlen, hone]
      omega

/-- C10: the combined length the classifier compares with 400 and 2000 is
`len(preface) + len(' '.join(body))`, which for `n ≥ 1` paragraphs equals
`len(preface) + (sum of paragraph lengths) + (n - 1)`: the separators of
the join count, so the boundary decision depends on the number of
paragraphs and not only on the total characters. -/
theorem claim_c10_joined_length (preface : List Char)
    (body : List (List Char)) (h : body ≠ []) :
    preface.length + (Article.mkText body).length =
      preface.length + ((body.map List.length).sum + (body.length - 1)) := by
  unfold Article.mkText
  rw [joinSep_space_length body h]

/-- C10 witness: two paragraphs of total length 4 join to length 5. -/
theorem claim_c10_witness :
    ("ab".toList : List Char).length +
        (Article.mkText ["cd".toList, "ef".toList]).length =
      ("ab".toList : List Char).length +
        (([("cd".toList : List Char), "ef".toList].map List.length).sum +
          ([("cd".toList : List Char), "ef".toList].length - 1)) :=
  claim_c10_joined_length "ab".toList ["cd".toList, "ef".toList]
    (by decide)

/-! ## Claims about the attribution resolver -/

/-- A search collaborator that always returns a no-items response. -/
def noSearch : List Char → Except Unit (Option (List SearchItem)) :=
  fun _ => Except.ok none

/-- A search collaborator whose every call raises. -/
def failSearch : List Char → Except Unit (Option (List SearchItem)) :=
  fun _ => Except.error ()

/-- Body text containing the outlet name `NRC` and no quoted span. -/
def c2TextNoQuote : List Char := "NRC meldt dat.".toList

/-- Body text containing the outlet name `NRC` and one two-word quote. -/
def c2TextShortQuote : List Char :=
  "NRC zegt: ".toList ++ quoteD :: "kort citaat".toList ++
    quoteD :: " nu.".toList

/-- Body text containing the outlet name `Telegraaf` and one ten-word
quote, long enough to be searched. -/
def c3TextLongQuote : List Char :=
  "Telegraaf meldt: ".toList ++
    quoteD :: "een twee drie vier vijf zes zeven acht negen tien".toList ++
    quoteD :: " aldus.".toList

/-- Exhausting the quote loop without a hit returns the fallback handle:
every quote below the ten-word threshold is skipped. -/
lemma searchQuotes_all_short
    (search : List Char → Except Unit (Option (List SearchItem)))
    (fb : List Char) :
    ∀ qs : List (List Char),
    (∀ q ∈ qs, ((pySplit q).take 32).length < 10) →
    searchQuotes search fb qs = Except.ok (some fb) := by
  intro qs
  induction qs with
  | nil => intro _; rfl
  | cons q rest ih =>
    intro h
    simp only [searchQuotes]
    rw [if_pos (h q (by simp))]
    exact ih (fun p hp => h p (List.mem_cons_of_mem _ hp))

/-- C2 counterexample: no journalist matches, the outlet `NRC` matches, and
the body text has no double-quoted span; the claim says resolve returns the
outlet handle, but the code returns `None` (`if not quotes: return None`).
-/
theorem claim_c2_counterexample :
    Article.get_source_url noSearch [] [] c2TextNoQuote = Except.ok none ∧
    (Except.ok (none : Option (List Char)) : Except Unit (Option (List Char)))
      ≠ Except.ok (some "@nrc".toList) := by
  constructor
  · rfl
  · simp

/-- C2 (amended): with no journalist match and an outlet match, when the
body text contains no double-quoted span at all, resolve returns `None`
(not the outlet handle); when it contains quoted spans but every span is
below the ten-word threshold, the quote list is exhausted without a search
and resolve falls back to `SourceHandle` of the first matched outlet. -/
theorem claim_c2_no_hit_fallback
    (search : List Char → Except Unit (Option (List SearchItem)))
    (title preface text : List Char)
    (hj : journalists.filter
      (fun p => containsSub (joinSep [' '] [title, preface, text]) p.1)
      = [])
    (k0 v0 : List Char) (tl : List (List Char × List Char))
    (hs : sourcesTable.filter
      (fun p => containsSub (joinSep [' '] [title, preface, text]) p.1)
      = (k0, v0) :: tl) :
    (findQuotes text = [] →
      Article.get_source_url search title preface text = Except.ok none) ∧
    ((∀ q ∈ findQuotes text, ((pySplit q).take 32).length < 10) →
      findQuotes text ≠ [] →
      Article.get_source_url search title preface text =
        Except.ok (some v0)) := by
  constructor
  · intro hq
    simp only [Article.get_source_url, hj, hs, hq]
  · intro hshort hne
    cases hfq : findQuotes text with
    | nil => exact absurd hfq hne
    | cons q rest =>
      simp only [Article.get_source_url, hj, hs, hfq]
      refine searchQuotes_all_short search v0 (q :: rest) ?_
      rw [← hfq]
      exact hshort

/-- C2 witness: the no-quote case returns `None` and the short-quote case
returns the outlet handle `@nrc`. -/
theorem claim_c2_witness :
    Article.get_source_url noSearch [] [] c2TextNoQuote = Except.ok none ∧
    Article.get_source_url noSearch [] [] c2TextShortQuote =
      Except.ok (some "@nrc".toList) := by
  constructor
  · exact (claim_c2_no_hit_fallback noSearch [] [] c2TextNoQuote
      (by decide) "NRC".toList "@nrc".toList [] (by decide)).1 (by decide)
  · exact (claim_c2_no_hit_fallback noSearch [] [] c2TextShortQuote
      (by decide) "NRC".toList "@nrc".toList [] (by decide)).2
      (by decide) (by decide)

/-- C3 counterexample: in `Article.get_source_url` there is no handler
around the search call, so a raised search error propagates out of
resolution instead of being logged and skipped. -/
theorem claim_c3_counterexample :
    Article.get_source_url failSearch [] [] c3TextLongQuote =
      Except.error () := by
  rfl

/-- C3 (amended): only the earlier `ClickbaitBot.get_source_url` variant
catches a raised search error: there the whole attempt is inside
`try/except`, and resolve always returns normally — with `None`, never the
outlet handle, on a failure; in `Article.get_source_url` a search failure
propagates out of resolution (see the counterexample). -/
theorem claim_c3_src_variant_never_raises
    (search : List Char → Except Unit CBResp) (today : List Char)
    (body : List (List Char)) :
    ∃ v, ClickbaitBot.get_source_url search today body = Except.ok v := by
  unfold ClickbaitBot.get_source_url
  by_cases hg : (!(cbWebsites.any (fun w => containsSub body.flatten w)) ||
      !(containsSub body.flatten [quoteD])) = true
  · rw [if_pos hg]
    exact ⟨none, rfl⟩
  · rw [if_neg hg]
    cases cbAttempt search today
        (((splitOnChar quoteD body.flatten).get? 1).getD []) with
    | error e => exact ⟨none, rfl⟩
    | ok v => exact ⟨v, rfl⟩

/-! ## Claim about the caption composer -/

/-- A hashtag table mapping the keyword `PSV` to `psv`. -/
def psvTable : List (List Char × List Char) :=
  [("PSV".toList, "psv".toList)]

/-- C8: for title `PSV wint` with keyword `PSV` present in the hashtag
table and occurring (case-insensitively) as a single word in the title, the
composed caption splices `#` in place — the result contains `#PSV` — and no
parenthesized hashtag paragraph is emitted: the full caption is the quoted
title with the splice and nothing else. -/
theorem claim_c8_psv_hashtag_spliced :
    Tweet.create_tweet psvTable "PSV wint".toList ["PSV".toList] none =
      quoteS :: ("#PSV wint".toList ++ [quoteS]) ∧
    containsSub
      (Tweet.create_tweet psvTable "PSV wint".toList ["PSV".toList] none)
      "#PSV".toList = true ∧
    containsSub
      (Tweet.create_tweet psvTable "PSV wint".toList ["PSV".toList] none)
      [Char.ofNat 40] = false := by
  refine ⟨by decide, by decide, by decide⟩
